import Mathlib

/-!
Shallow embedding of the mc copy/mirror planning engine: the URL shape
classifier and copy plan generators (cp-url.go), and the mirror delta engine
with its per-target availability oracle (the mirror source file).  External
collaborators (storage clients, stat, listing sources, path utilities) are
modelled as explicit function parameters or as small functions modelled from
the spec, as marked on each definition.
-/

/-- Kind of a listed filesystem / object-storage node (client.Content.Type);
the Go os.FileMode collapses to regular-file versus directory for this engine. -/
inductive FileKind
  | regular
  | directory
deriving DecidableEq

/-- One filesystem/object-storage node (client.Content) with its URL, Name,
Type and Size fields; the defaults mirror the Go zero value of client.Content. -/
structure Entry where
  url : String := ""
  name : String := ""
  kind : FileKind := .regular
  size : Int := 0
deriving DecidableEq

/-- One event on a listing channel (client.ContentOnChannel): an entry or an
error event; an error event carries no content (its Content pointer is nil). -/
inductive ListEvent
  | entry (e : Entry)
  | errEvent (msg : String)
deriving DecidableEq

/-- Error values produced by the mirror delta engine and its availability
oracle (the probe.Error values errInvalidTarget, errOverWriteNotAllowed, and a
forwarded listing-stream error). -/
inductive MError
  | invalidTarget (url : String)
  | overwriteNotAllowed (url : String)
  | streamError (msg : String)
deriving DecidableEq

/-- Result of one isAvailable query, the Go pair (bool, *probe.Error): ok b is
(b, nil), fatal e is (false, e); panics marks the nil-pointer dereference Go
performs when the comparison branch runs with a nil content.Content. -/
inductive AvailResult
  | ok (b : Bool)
  | fatal (e : MError)
  | panics
deriving DecidableEq

/-- Go string comparison s1 < s2 (byte-lexicographic), modelled as the
lexicographic order on the character list of the string. -/
def strLt (a b : String) : Prop := List.Lex (fun c d : Char => c < d) a.data b.data

instance (a b : String) : Decidable (strLt a b) :=
  inferInstanceAs (Decidable (List.Lex (fun c d : Char => c < d) a.data b.data))

/-- Non-strict companion of strLt, used to state the non-decreasing listing and
query orders the mirror merge relies on. -/
def strLe (a b : String) : Prop := strLt a b ∨ a = b

instance (a b : String) : Decidable (strLe a b) :=
  inferInstanceAs (Decidable (strLt a b ∨ a = b))

/-- Modelled from the spec: the backend path separator is "/", and Go
strings.HasSuffix(url, separator) is a last-character test. -/
def endsWithSep (s : String) : Bool := s.data.getLast? = some '/'

/-- Modelled from the spec: the external path utility urlJoinPath joining two
path segments respecting the separator. -/
def urlJoinPath (u p : String) : String :=
  if endsWithSep u then u ++ p else u ++ "/" ++ p

/-- Go strings.TrimPrefix: drop pre when it is a prefix of s, else return s
unchanged. -/
def trimPrefixStr (s pre : String) : String :=
  if pre.data.isPrefixOf s.data then String.mk (s.data.drop pre.data.length) else s

/-- Modelled from the spec: the final path segment of a path (filepath.Base)
for the arguments this engine passes it (paths not ending in the separator). -/
def baseName (p : String) : String :=
  if p = "" then "."
  else String.mk ((p.data.reverse.takeWhile (fun c => ¬ c = '/')).reverse)

/-- From the source expression sourceURL[:strings.LastIndex(sourceURL, sep)+1]:
the prefix of a path up to and including its last separator (empty when the
path has no separator). -/
def dirPrefixOf (p : String) : String :=
  String.mk ((p.data.reverse.dropWhile (fun c => ¬ c = '/')).reverse)

/-- Modelled from the spec: the external path utility join(target_dir, name)
used by the copy plan generators (filepath.Join on already-clean segments). -/
def joinFilePath (a b : String) : String :=
  if endsWithSep a then a ++ b else a ++ "/" ++ b

/-- ASCII whitespace test modelling the characters Go strings.TrimSpace strips
in the inputs this program sees. -/
def isSpaceChar (c : Char) : Bool :=
  c == ' ' || c == '\t' || c == '\n' || c == '\r'

/-- Modelled from the spec: Go strings.TrimSpace. -/
def trimSpace (s : String) : String :=
  String.mk (((s.data.dropWhile isSpaceChar).reverse.dropWhile isSpaceChar).reverse)

/-- Modelled from the spec: a source URL carries the recursive marker when it
ends with the ellipsis marker "..." (isURLRecursive). -/
def isURLRecursive (url : String) : Bool :=
  [ '.', '.', '.' ].isSuffixOf url.data

/-- Modelled from the spec: strip the trailing recursive marker from a URL
(stripRecursiveURL). -/
def stripRecursiveURL (url : String) : String :=
  if isURLRecursive url then String.mk (url.data.take (url.data.length - 3)) else url

/-- Modelled from the spec: whether the target resolves to an existing
directory (isTargetURLDir), with the external stat interface passed in. -/
def isTargetURLDir (stat : String → Option Entry) (url : String) : Bool :=
  match stat url with
  | some c => decide (c.kind = FileKind.directory)
  | none => false

/-- State of one target's availability oracle, the merge cursor captured by the
closure getIsAvailable returns: current, content and reachedEOF are its mutable
locals, stream is the not-yet-consumed rest of the target listing channel. -/
structure OracleState where
  targetRoot : String
  current : String
  content : Option Entry
  stream : List ListEvent
  eof : Bool
deriving DecidableEq

/-- Comparison performed by isAvailable when expected == current; content none
is the Go nil content pointer, whose field access would panic. -/
def compareEntry (mirrorIsForce : Bool) (srcType : FileKind) (srcSize : Int)
    (current : String) : Option Entry → AvailResult
  | none => .panics
  | some c =>
    if srcType = .regular ∧ ¬ c.kind = .regular then .fatal (.invalidTarget current)
    else if (srcType = .regular ∧ c.kind = .regular) ∧ ¬ srcSize = c.size then
      if mirrorIsForce = false then .fatal (.overwriteNotAllowed current)
      else .ok false
    else .ok true

/-- Output of the isAvailable merge loop: the query result plus the new values
of the captured cursor state. -/
structure LoopOut where
  result : AvailResult
  current : String
  content : Option Entry
  stream : List ListEvent
  eof : Bool
deriving DecidableEq

/-- The for-loop inside isAvailable: compare expected with the cursor,
advancing the cursor by pulling the next event from the target listing channel
while expected is ahead of it; a closed channel yields the Go zero value, so at
end of input content becomes none and the sticky EOF flag is set. -/
def availLoop (mirrorIsForce : Bool) (srcType : FileKind) (srcSize : Int)
    (expected : String) :
    String → Option Entry → List ListEvent → LoopOut
  | current, content, stream =>
    if strLt expected current then ⟨.ok false, current, content, stream, false⟩
    else if expected = current then
      ⟨compareEntry mirrorIsForce srcType srcSize current content, current, content,
        stream, false⟩
    else
      match stream with
      | [] => ⟨.ok false, current, none, [], true⟩
      | .errEvent m :: rest => ⟨.fatal (.streamError m), current, none, rest, false⟩
      | .entry e :: rest =>
        availLoop mirrorIsForce srcType srcSize expected e.url (some e) rest

/-- Initial oracle state built by getIsAvailable: the cursor starts at the
target root URL with the full target listing channel pending (url2Client
construction errors are external and out of scope). -/
def getIsAvailable (url : String) (listing : List ListEvent) : OracleState :=
  { targetRoot := url
    current := url
    content := none
    stream := listing
    eof := false }

/-- One isAvailable(suffix, srcType, srcSize) query on an oracle state: the
sticky EOF check, then the merge loop; returns the Go (bool, error) result and
the updated cursor state. -/
def isAvailable (mirrorIsForce : Bool) (suffix : String) (srcType : FileKind)
    (srcSize : Int) (st : OracleState) : AvailResult × OracleState :=
  if st.eof then (.ok false, st)
  else
    let o := availLoop mirrorIsForce srcType srcSize
      (urlJoinPath st.targetRoot suffix) st.current st.content st.stream
    (o.result,
      { st with
        current := o.current
        content := o.content
        stream := o.stream
        eof := o.eof })

/-- A sequence of isAvailable queries against one oracle, threading its cursor
state; source entries queried by the engine are always regular files. -/
def runQueries (mirrorIsForce : Bool) :
    List (String × Int) → OracleState → List AvailResult × OracleState
  | [], st => ([], st)
  | q :: qs, st =>
    let p := isAvailable mirrorIsForce q.1 .regular q.2 st
    let r := runQueries mirrorIsForce qs p.2
    (p.1 :: r.1, r.2)

/-- One mirror instruction or error on the output channel (the mirrorURLs
struct); target contents are represented by their URL strings, the only field
the engine sets on them. -/
structure mirrorURLs where
  sourceContent : Option Entry := none
  targetContents : List String := []
  error : Option MError := none
deriving DecidableEq

/-- Go mirrorURLs.isEmpty. Its second branch reads m.SourceContent.Size without
a nil check, so on a value with a nil SourceContent that reaches it the method
panics; none models that panic. -/
def mirrorURLs.isEmpty (m : mirrorURLs) : Option Bool :=
  if m.sourceContent = none ∧ m.targetContents = [] ∧ m.error = none then some true
  else
    match m.sourceContent with
    | none => none
    | some c =>
      if c.size = 0 ∧ m.targetContents = [] ∧ m.error = none then some true
      else some false

/-- Result of the inner per-target loop of deltaSourceTargets for one source
entry: error instructions emitted, target paths collected as still missing the
object, the threaded oracle states, and whether a query panicked (killing the
goroutine). -/
structure TargetsOut where
  errs : List mirrorURLs
  tgts : List String
  states : List (String × OracleState)
  panicked : Bool

/-- The inner for-loop of deltaSourceTargets over the targets for one source
entry: query each target's oracle in order; a failed query emits one error
instruction and skips that target, an unavailable object contributes the joined
target path. -/
def processTargets (mirrorIsForce : Bool) (suffix : String) (srcType : FileKind)
    (srcSize : Int) : List (String × OracleState) → TargetsOut
  | [] => ⟨[], [], [], false⟩
  | (u, st) :: rest =>
    let p := isAvailable mirrorIsForce suffix srcType srcSize st
    match p.1 with
    | .panics => ⟨[], [], [], true⟩
    | .fatal e =>
      let r := processTargets mirrorIsForce suffix srcType srcSize rest
      ⟨{ error := some e } :: r.errs, r.tgts, (u, p.2) :: r.states, r.panicked⟩
    | .ok true =>
      let r := processTargets mirrorIsForce suffix srcType srcSize rest
      ⟨r.errs, r.tgts, (u, p.2) :: r.states, r.panicked⟩
    | .ok false =>
      let r := processTargets mirrorIsForce suffix srcType srcSize rest
      ⟨r.errs, urlJoinPath u suffix :: r.tgts, (u, p.2) :: r.states, r.panicked⟩

/-- The source-listing loop of deltaSourceTargets: forward source listing
errors, skip directories, compute each entry's suffix (prefixed with
sourceBaseDir when set), query all targets, and emit one instruction when some
target still misses the object. -/
def deltaLoop (mirrorIsForce : Bool) (sourceURL sourceBaseDir : String) :
    List ListEvent → List (String × OracleState) → List mirrorURLs
  | [], _ => []
  | .errEvent m :: evs, ts =>
    { error := some (.streamError m) } ::
      deltaLoop mirrorIsForce sourceURL sourceBaseDir evs ts
  | .entry e :: evs, ts =>
    if e.kind = .directory then deltaLoop mirrorIsForce sourceURL sourceBaseDir evs ts
    else
      let suffix0 := trimPrefixStr e.url sourceURL
      let suffix :=
        if ¬ sourceBaseDir = "" then urlJoinPath sourceBaseDir suffix0 else suffix0
      let r := processTargets mirrorIsForce suffix e.kind e.size ts
      if r.panicked then r.errs
      else
        r.errs ++
          (if 0 < r.tgts.length then
            [{ sourceContent := some e, targetContents := r.tgts }]
          else []) ++
          deltaLoop mirrorIsForce sourceURL sourceBaseDir evs r.states

/-- Go deltaSourceTargets: normalize the source root and each target root to
end with the separator (remembering the source base dir when the source did not
end with one), build one availability oracle per target from its listing, then
stream the source listing; the listings stand for the external clients. -/
def deltaSourceTargets (mirrorIsForce : Bool) (sourceURL : String)
    (targetURLs : List String) (sourceListing : List ListEvent)
    (targetListing : String → List ListEvent) : List mirrorURLs :=
  let sourceBaseDir := if endsWithSep sourceURL then "" else baseName sourceURL
  let sourceURL' := if endsWithSep sourceURL then sourceURL else sourceURL ++ "/"
  let targetURLs' := targetURLs.map (fun u => if endsWithSep u then u else u ++ "/")
  let ts := targetURLs'.map (fun u => (u, getIsAvailable u (targetListing u)))
  deltaLoop mirrorIsForce sourceURL' sourceBaseDir sourceListing ts

/-- The copyURLsType enumeration of cp-url.go (shape variants A to D). -/
inductive copyURLsType
  | invalid
  | typeA
  | typeB
  | typeC
  | typeD
deriving DecidableEq

/-- Error values carried inside copy instructions (the iodine-wrapped error
structs of cp-url.go). -/
inductive CopyErr
  | statError (url : String)
  | invalidSource (url : String)
  | sourceNotRecursive (url : String)
  | sourceIsNotDir (url : String)
  | listError (msg : String)
deriving DecidableEq

/-- One copy instruction or error (the copyURLs struct). -/
structure copyURLs where
  sourceContent : Option Entry := none
  targetContent : Option Entry := none
  error : Option CopyErr := none
deriving DecidableEq

/-- Go guessCopyURLType. Go slices distinguish the nil slice from a non-nil
empty slice and the function tests sourceURLs == nil, so the source list is an
Option (List String) with none standing for the nil slice. -/
def guessCopyURLType (stat : String → Option Entry) (sourceURLs : Option (List String))
    (targetURL : String) : copyURLsType :=
  if trimSpace targetURL = "" ∨ targetURL = "" then .invalid
  else if sourceURLs = none then .invalid
  else if (sourceURLs.getD []).length = 1 then
    if isURLRecursive ((sourceURLs.getD []).headD "") then .typeC
    else if isTargetURLDir stat targetURL then .typeB
    else .typeA
  else .typeD

/-- Go prepareCopyURLsTypeA with the external url2Stat interface passed in; the
output channel becomes the returned list, closed after these sends. -/
def prepareCopyURLsTypeA (stat : String → Option Entry)
    (sourceURL targetURL : String) : List copyURLs :=
  match stat sourceURL with
  | none => [ { error := some (.statError sourceURL) } ]
  | some c =>
    if ¬ c.kind = .regular then [ { error := some (.invalidSource sourceURL) } ]
    else
      [ { sourceContent := some { c with name := sourceURL }
          targetContent := some { name := targetURL } } ]

/-- Go prepareCopyURLsTypeB: stat the source, join the target directory with
the base of the source path, and delegate to type A; client.Parse is modelled
as the identity on these already-parsed path strings. -/
def prepareCopyURLsTypeB (stat : String → Option Entry)
    (sourceURL targetURL : String) : List copyURLs :=
  match stat sourceURL with
  | none => [ { error := some (.statError sourceURL) } ]
  | some c =>
    if ¬ c.kind = .regular then [ { error := some (.invalidSource sourceURL) } ]
    else prepareCopyURLsTypeA stat sourceURL (joinFilePath targetURL (baseName sourceURL))

/-- Go prepareCopyURLsTypeC: require the recursive marker, stat the stripped
root as a directory, then stream its recursive listing (the listing argument,
standing for sourceClient.List(true)), forwarding listing errors, skipping
non-regular entries, and delegating each regular file to type A on the
delimited source path and the joined target path; client.Parse is modelled as
the identity. -/
def prepareCopyURLsTypeC (stat : String → Option Entry) (listing : List ListEvent)
    (sourceURL targetURL : String) : List copyURLs :=
  if ¬ isURLRecursive sourceURL then
    [ { error := some (.sourceNotRecursive sourceURL) } ]
  else
    let sourceURL' := stripRecursiveURL sourceURL
    match stat sourceURL' with
    | none => [ { error := some (.statError sourceURL') } ]
    | some c =>
      if ¬ c.kind = .directory then [ { error := some (.sourceIsNotDir sourceURL') } ]
      else
        listing.flatMap (fun ev =>
          match ev with
          | .errEvent m => [ { error := some (.listError m) } ]
          | .entry e =>
            if ¬ e.kind = .regular then []
            else
              prepareCopyURLsTypeA stat (dirPrefixOf sourceURL' ++ e.name)
                (joinFilePath targetURL e.name))

/-- Suffix the mirror delta engine computes for a source entry: the entry URL
relative to the normalized source root, prefixed with the source base dir when
the original source root did not end with the separator. -/
def mirrorSuffix (sourceURL : String) (e : Entry) : String :=
  if endsWithSep sourceURL then trimPrefixStr e.url sourceURL
  else urlJoinPath (baseName sourceURL) (trimPrefixStr e.url (sourceURL ++ "/"))

/-- Invariant of one availability oracle after a sequence of queries whose
expected paths were all at most lo: either untouched, or the cursor sits on a
listed entry with everything strictly before it already ruled out below lo, or
the sticky EOF state with the whole listing ruled out below lo. -/
def OracleInv (R : String) (T : List Entry) (lo : String) (st : OracleState) : Prop :=
  st.targetRoot = R ∧
  ((st.current = R ∧ st.content = none ∧ st.stream = T.map .entry ∧ st.eof = false) ∨
   (∃ done c rest, T = done ++ c :: rest ∧ st.current = c.url ∧
      st.content = some c ∧ st.stream = rest.map .entry ∧ st.eof = false ∧
      ∀ e ∈ done, strLt e.url lo) ∨
   (st.eof = true ∧ ∀ e ∈ T, strLt e.url lo))

/-- Normalization of a root URL to end with the separator, as deltaSourceTargets
performs on the source root and each target root. -/
def normRoot (u : String) : String := if endsWithSep u then u else u ++ "/"

/-- Constant prefix that mirrorSuffix prepends to an entry's path relative to
the normalized source root (empty when the source root ended with the
separator). -/
def suffixBase (src : String) : String :=
  if endsWithSep src then ""
  else if endsWithSep (baseName src) then baseName src else baseName src ++ "/"

/-- Target-side image of a source entry under the mirror: the object the engine
would create for it under target root u (used to describe a fully mirrored
target listing). -/
def mirrorImage (src u : String) (e : Entry) : Entry :=
  { url := urlJoinPath u (mirrorSuffix src e), kind := .regular, size := e.size }

/-- Oracle state of one target during a fully mirrored run: the cursor sits on
the image of the previously queried source entry (or at the root), with the
images of the remaining regular source entries still pending on the stream. -/
def alignedOracle (src u : String) (p : Option Entry) (rem : List Entry) :
    OracleState :=
  { targetRoot := u
    current :=
      match p with
      | none => u
      | some pe => urlJoinPath u (mirrorSuffix src pe)
    content := p.map (fun pe => mirrorImage src u pe)
    stream := rem.map (fun e => .entry (mirrorImage src u e))
    eof := false }

/-- Reference answer of one availability query: what the merge should say about
expected path E given the full target listing T. -/
def lookupAnswer (f : Bool) (z : Int) (E : String) (T : List Entry) : AvailResult :=
  match T.find? (fun e => decide (e.url = E)) with
  | none => .ok false
  | some e => compareEntry f .regular z e.url (some e)

/-- Example external stat world: "out/" is an existing directory, "f" is a
regular 2-byte file, everything else does not exist (used by concrete
instantiations). -/
def statExample : String → Option Entry := fun u =>
  if u = "out/" then some { url := "out/", kind := .directory }
  else if u = "f" then some { url := "f", kind := .regular, size := 2 }
  else if u = "d" then some { url := "d", kind := .directory }
  else if u = "d/x" then some { url := "d/x", kind := .regular, size := 1 }
  else none

/-! String order toolkit for the merge proofs. -/

theorem strLt_irrefl (a : String) : ¬ strLt a a := by
  unfold strLt
  exact fun h => (List.Lex.isAsymm (r := fun c d : Char => c < d)).asymm _ _ h h

theorem strLt_ne {a b : String} (h : strLt a b) : a ≠ b := by
  intro he
  exact strLt_irrefl b (he ▸ h)

theorem strLt_asymm {a b : String} (h : strLt a b) : ¬ strLt b a :=
  fun h' => (List.Lex.isAsymm (r := fun c d : Char => c < d)).asymm _ _ h h'

theorem strLt_trans {a b c : String} (h1 : strLt a b) (h2 : strLt b c) : strLt a c := by
  unfold strLt at *
  exact (List.Lex.isStrictTotalOrder (r := fun c d : Char => c < d)).trans _ _ _ h1 h2

theorem strLt_trichotomy (a b : String) : strLt a b ∨ a = b ∨ strLt b a := by
  rcases (List.Lex.isTrichotomous (r := fun c d : Char => c < d)).trichotomous
      a.data b.data with h | h | h
  · exact Or.inl h
  · exact Or.inr (Or.inl (String.toList_inj.mp h))
  · exact Or.inr (Or.inr h)

theorem strLt_of_strLt_of_strLe {a b c : String} (h1 : strLt a b) (h2 : strLe b c) :
    strLt a c := by
  rcases h2 with h2 | h2
  · exact strLt_trans h1 h2
  · exact h2 ▸ h1

theorem strLe_trans {a b c : String} (h1 : strLe a b) (h2 : strLe b c) : strLe a c := by
  rcases h1 with h1 | h1
  · exact Or.inl (strLt_of_strLt_of_strLe h1 h2)
  · exact h1 ▸ h2

theorem str_data_append (a b : String) : (a ++ b).data = a.data ++ b.data := rfl

theorem str_ne_empty_iff {s : String} : s ≠ "" ↔ s.data ≠ [] := by
  constructor
  · intro h he
    exact h (String.toList_inj.mp he)
  · intro h he
    exact h (he ▸ rfl)

theorem strLt_self_append {s t : String} (h : t ≠ "") : strLt s (s ++ t) := by
  unfold strLt
  rw [str_data_append]
  obtain ⟨c, cs, hct⟩ : ∃ c cs, t.data = c :: cs := by
    rcases hd : t.data with _ | ⟨c, cs⟩
    · exact absurd hd (str_ne_empty_iff.mp h)
    · exact ⟨c, cs, rfl⟩
  rw [hct]
  clear hct
  induction s.data with
  | nil => exact List.Lex.nil
  | cons a l ih => exact List.Lex.cons ih

theorem strLt_append_iff {s a b : String} : strLt (s ++ a) (s ++ b) ↔ strLt a b := by
  unfold strLt
  rw [str_data_append, str_data_append]
  induction s.data with
  | nil => exact Iff.rfl
  | cons c l ih =>
    constructor
    · intro h
      rcases h with _ | ⟨h⟩ | ⟨h⟩
      · exact ih.mp (by assumption)
      · exact absurd (by assumption) (lt_irrefl c)
    · intro h
      exact List.Lex.cons (ih.mpr h)

theorem strLe_append {s a b : String} (h : strLe a b) : strLe (s ++ a) (s ++ b) := by
  rcases h with h | h
  · exact Or.inl (strLt_append_iff.mpr h)
  · exact Or.inr (h ▸ rfl)

theorem str_append_ne_self {s t : String} (h : t ≠ "") : s ++ t ≠ s := by
  intro he
  have hlt := strLt_self_append (s := s) h
  rw [he] at hlt
  exact strLt_irrefl s hlt

theorem str_append_ne_empty_right {s t : String} (h : t ≠ "") : s ++ t ≠ "" := by
  rw [str_ne_empty_iff, str_data_append]
  intro he
  rcases List.append_eq_nil.mp he with ⟨_, h2⟩
  exact str_ne_empty_iff.mp h h2

theorem str_append_left_inj {s a b : String} (h : s ++ a = s ++ b) : a = b := by
  apply String.toList_inj.mp
  have := congrArg String.data h
  rw [str_data_append, str_data_append] at this
  exact List.append_cancel_left this

/-! Merge-loop characterization lemmas. -/

theorem availLoop_lt {f : Bool} {k : FileKind} {z : Int} {E cur : String}
    {cont : Option Entry} {stream : List ListEvent} (h : strLt E cur) :
    availLoop f k z E cur cont stream = ⟨.ok false, cur, cont, stream, false⟩ := by
  rw [availLoop.eq_def]
  simp [h]

theorem availLoop_at {f : Bool} {k : FileKind} {z : Int} {E cur : String}
    {cont : Option Entry} {stream : List ListEvent} (h : E = cur) :
    availLoop f k z E cur cont stream =
      ⟨compareEntry f k z cur cont, cur, cont, stream, false⟩ := by
  subst h
  rw [availLoop.eq_def]
  simp [strLt_irrefl]

theorem availLoop_scan (f : Bool) (k : FileKind) (z : Int) (E : String) :
    ∀ (rest : List Entry) (cur : String) (cont : Option Entry), strLt cur E →
      (match rest.dropWhile (fun e => decide (strLt e.url E)) with
       | [] => ∃ c', availLoop f k z E cur cont (rest.map .entry) =
           ⟨.ok false, c', none, [], true⟩
       | e :: post =>
           availLoop f k z E cur cont (rest.map .entry) =
             ⟨if E = e.url then compareEntry f k z e.url (some e) else .ok false,
               e.url, some e, post.map .entry, false⟩) := by
  intro rest
  induction rest with
  | nil =>
    intro cur cont hcur
    simp only [List.dropWhile_nil, List.map_nil]
    refine ⟨cur, ?_⟩
    rw [availLoop.eq_def]
    simp [strLt_asymm hcur, (strLt_ne hcur).symm]
  | cons e rest ih =>
    intro cur cont hcur
    have hstep : availLoop f k z E cur cont ((e :: rest).map .entry) =
        availLoop f k z E e.url (some e) (rest.map .entry) := by
      rw [List.map_cons, availLoop.eq_def]
      simp [strLt_asymm hcur, (strLt_ne hcur).symm]
    by_cases he : strLt e.url E
    · have hd : (e :: rest).dropWhile (fun e => decide (strLt e.url E)) =
          rest.dropWhile (fun e => decide (strLt e.url E)) := by
        simp [List.dropWhile_cons, he]
      rw [hd, hstep]
      exact ih e.url (some e) he
    · have hd : (e :: rest).dropWhile (fun e => decide (strLt e.url E)) = e :: rest := by
        simp [List.dropWhile_cons, he]
      rw [hd, hstep]
      rcases strLt_trichotomy E e.url with h | h | h
      · rw [availLoop_lt h]
        simp [(strLt_ne h)]
      · rw [availLoop_at h]
        simp [h]
      · exact absurd h he

theorem dropWhile_head_false {α : Type} {p : α → Bool} :
    ∀ {l : List α} {e : α} {post : List α}, l.dropWhile p = e :: post → p e = false := by
  intro l
  induction l with
  | nil => intro e post h; simp at h
  | cons a l ih =>
    intro e post h
    rw [List.dropWhile_cons] at h
    by_cases hpa : p a = true
    · rw [if_pos hpa] at h
      exact ih h
    · rw [if_neg hpa] at h
      injection h with h1 _
      subst h1
      exact Bool.eq_false_iff.mpr hpa

theorem find?_url_append {E : String} :
    ∀ (pre : List Entry) (e : Entry) (post : List Entry),
      (∀ x ∈ pre, ¬ x.url = E) → e.url = E →
      (pre ++ e :: post).find? (fun x => decide (x.url = E)) = some e := by
  intro pre
  induction pre with
  | nil =>
    intro e post _ he
    simp [List.find?_cons, he]
  | cons a pre ih =>
    intro e post hpre he
    have ha : ¬ a.url = E := hpre a (List.mem_cons_self a pre)
    rw [List.cons_append, List.find?_cons, decide_eq_false ha]
    exact ih e post (fun x hx => hpre x (List.mem_cons_of_mem a hx)) he


theorem oracle_step (f : Bool) (R : String) (T : List Entry) (lo E : String)
    (z : Int) (st : OracleState) (sfx : String)
    (hT : T.Pairwise (fun a b => strLt a.url b.url))
    (hinv : OracleInv R T lo st)
    (hRE : strLt R E)
    (hlo : strLe lo E)
    (hEs : urlJoinPath R sfx = E) :
    (isAvailable f sfx .regular z st).1 = lookupAnswer f z E T ∧
    OracleInv R T E (isAvailable f sfx .regular z st).2 := by
  obtain ⟨rt, cur, cont, strm, eo⟩ := st
  obtain ⟨hroot, hcase⟩ := hinv
  dsimp only at hroot hcase
  subst rt
  rcases hcase with ⟨hcur, hcont, hstream, heof⟩ |
    ⟨done, c, rest, hTeq, hcur, hcont, hstream, heof, hdone⟩ | ⟨heof, hall⟩
  · -- initial state
    subst cur cont strm eo
    have hscan := availLoop_scan f .regular z E T R none hRE
    cases hdw : T.dropWhile (fun x => decide (strLt x.url E)) with
    | nil =>
      rw [hdw] at hscan
      obtain ⟨c', hloop⟩ := hscan
      have hALL : ∀ x ∈ T, strLt x.url E := by
        intro x hx
        simpa using List.dropWhile_eq_nil_iff.mp hdw x hx
      have hIA : isAvailable f sfx .regular z ⟨R, R, none, T.map .entry, false⟩ =
          (.ok false, ⟨R, c', none, [], true⟩) := by
        simp [isAvailable, hEs, hloop]
      rw [hIA]
      refine ⟨?_, ?_⟩
      · have hn : T.find? (fun x => decide (x.url = E)) = none := by
          rw [List.find?_eq_none]
          intro x hx
          simp only [decide_eq_true_eq]
          exact strLt_ne (hALL x hx)
        unfold lookupAnswer
        rw [hn]
      · exact ⟨rfl, Or.inr (Or.inr ⟨rfl, hALL⟩)⟩
    | cons e post =>
      rw [hdw] at hscan
      have hloop : availLoop f .regular z E R none (T.map .entry) =
          ⟨if E = e.url then compareEntry f .regular z e.url (some e) else .ok false,
            e.url, some e, post.map .entry, false⟩ := hscan
      have hTsplit : T = T.takeWhile (fun x => decide (strLt x.url E)) ++ e :: post := by
        conv_lhs => rw [← List.takeWhile_append_dropWhile
          (p := fun x => decide (strLt x.url E)) (l := T)]
        rw [hdw]
      have htw : ∀ x ∈ T.takeWhile (fun x => decide (strLt x.url E)), strLt x.url E := by
        intro x hx
        simpa using List.mem_takeWhile_imp hx
      have hef : ¬ strLt e.url E := by
        simpa using dropWhile_head_false hdw
      by_cases hEe : E = e.url
      · have hIA : isAvailable f sfx .regular z ⟨R, R, none, T.map .entry, false⟩ =
            (compareEntry f .regular z e.url (some e),
              ⟨R, e.url, some e, post.map .entry, false⟩) := by
          simp [isAvailable, hEs, hloop, if_pos hEe]
        rw [hIA]
        refine ⟨?_, ?_⟩
        · have hfind : T.find? (fun x => decide (x.url = E)) = some e := by
            rw [hTsplit]
            exact find?_url_append _ e post (fun x hx => strLt_ne (htw x hx)) hEe.symm
          unfold lookupAnswer
          rw [hfind]
        · exact ⟨rfl, Or.inr (Or.inl ⟨_, e, post, hTsplit, rfl, rfl, rfl, rfl, htw⟩)⟩
      · have hlt : strLt E e.url := by
          rcases strLt_trichotomy E e.url with h | h | h
          · exact h
          · exact absurd h hEe
          · exact absurd h hef
        have hIA : isAvailable f sfx .regular z ⟨R, R, none, T.map .entry, false⟩ =
            (.ok false, ⟨R, e.url, some e, post.map .entry, false⟩) := by
          simp [isAvailable, hEs, hloop, if_neg hEe]
        rw [hIA]
        refine ⟨?_, ?_⟩
        · have hn : T.find? (fun x => decide (x.url = E)) = none := by
            rw [hTsplit, List.find?_eq_none]
            intro x hx
            simp only [decide_eq_true_eq]
            rcases List.mem_append.mp hx with hx | hx
            · exact strLt_ne (htw x hx)
            · rcases List.mem_cons.mp hx with hx | hx
              · subst hx
                exact fun hc => hEe hc.symm
              · have hp : strLt e.url x.url := by
                  have hT' := hT
                  rw [hTsplit] at hT'
                  rcases List.pairwise_append.mp hT' with ⟨_, h2, _⟩
                  exact (List.pairwise_cons.mp h2).1 x hx
                exact Ne.symm (strLt_ne (strLt_trans hlt hp))
          unfold lookupAnswer
          rw [hn]
        · exact ⟨rfl, Or.inr (Or.inl ⟨_, e, post, hTsplit, rfl, rfl, rfl, rfl, htw⟩)⟩
  · -- cursor on a listed entry
    subst cur cont strm eo
    have hT' := hT
    rw [hTeq] at hT'
    rcases List.pairwise_append.mp hT' with ⟨hPdone, hPcr, hCross⟩
    rcases List.pairwise_cons.mp hPcr with ⟨hcr, hPrest⟩
    have hdoneE : ∀ x ∈ done, strLt x.url E :=
      fun x hx => strLt_of_strLt_of_strLe (hdone x hx) hlo
    rcases strLt_trichotomy E c.url with hEc | hEc | hEc
    · -- expected still behind the cursor
      have hIA : isAvailable f sfx .regular z ⟨R, c.url, some c, rest.map .entry, false⟩ =
          (.ok false, ⟨R, c.url, some c, rest.map .entry, false⟩) := by
        simp [isAvailable, hEs, availLoop_lt hEc]
      rw [hIA]
      refine ⟨?_, ?_⟩
      · have hn : T.find? (fun x => decide (x.url = E)) = none := by
          rw [hTeq, List.find?_eq_none]
          intro x hx
          simp only [decide_eq_true_eq]
          rcases List.mem_append.mp hx with hx | hx
          · exact strLt_ne (hdoneE x hx)
          · rcases List.mem_cons.mp hx with hx | hx
            · subst hx
              exact Ne.symm (strLt_ne hEc)
            · exact Ne.symm (strLt_ne (strLt_trans hEc (hcr x hx)))
        unfold lookupAnswer
        rw [hn]
      · exact ⟨rfl, Or.inr (Or.inl ⟨done, c, rest, hTeq, rfl, rfl, rfl, rfl, hdoneE⟩)⟩
    · -- expected equals the cursor
      have hIA : isAvailable f sfx .regular z ⟨R, c.url, some c, rest.map .entry, false⟩ =
          (compareEntry f .regular z c.url (some c),
            ⟨R, c.url, some c, rest.map .entry, false⟩) := by
        simp [isAvailable, hEs, availLoop_at hEc]
      rw [hIA]
      refine ⟨?_, ?_⟩
      · have hfind : T.find? (fun x => decide (x.url = E)) = some c := by
          rw [hTeq]
          exact find?_url_append done c rest (fun x hx => strLt_ne (hdoneE x hx)) hEc.symm
        unfold lookupAnswer
        rw [hfind]
      · exact ⟨rfl, Or.inr (Or.inl ⟨done, c, rest, hTeq, rfl, rfl, rfl, rfl, hdoneE⟩)⟩
    · -- expected ahead of the cursor: scan the remaining stream
      have hscan := availLoop_scan f .regular z E rest c.url (some c) hEc
      cases hdw : rest.dropWhile (fun x => decide (strLt x.url E)) with
      | nil =>
        rw [hdw] at hscan
        obtain ⟨c', hloop⟩ := hscan
        have hALLr : ∀ x ∈ rest, strLt x.url E := by
          intro x hx
          simpa using List.dropWhile_eq_nil_iff.mp hdw x hx
        have hIA : isAvailable f sfx .regular z ⟨R, c.url, some c, rest.map .entry, false⟩ =
            (.ok false, ⟨R, c', none, [], true⟩) := by
          simp [isAvailable, hEs, hloop]
        rw [hIA]
        refine ⟨?_, ?_⟩
        · have hn : T.find? (fun x => decide (x.url = E)) = none := by
            rw [hTeq, List.find?_eq_none]
            intro x hx
            simp only [decide_eq_true_eq]
            rcases List.mem_append.mp hx with hx | hx
            · exact strLt_ne (hdoneE x hx)
            · rcases List.mem_cons.mp hx with hx | hx
              · subst hx
                exact strLt_ne hEc
              · exact strLt_ne (hALLr x hx)
          unfold lookupAnswer
          rw [hn]
        · refine ⟨rfl, Or.inr (Or.inr ⟨rfl, ?_⟩)⟩
          rw [hTeq]
          intro x hx
          rcases List.mem_append.mp hx with hx | hx
          · exact hdoneE x hx
          · rcases List.mem_cons.mp hx with hx | hx
            · subst hx
              exact hEc
            · exact hALLr x hx
      | cons e post =>
        rw [hdw] at hscan
        have hloop : availLoop f .regular z E c.url (some c) (rest.map .entry) =
            ⟨if E = e.url then compareEntry f .regular z e.url (some e) else .ok false,
              e.url, some e, post.map .entry, false⟩ := hscan
        have hRsplit : rest = rest.takeWhile (fun x => decide (strLt x.url E)) ++ e :: post := by
          conv_lhs => rw [← List.takeWhile_append_dropWhile
            (p := fun x => decide (strLt x.url E)) (l := rest)]
          rw [hdw]
        have htw : ∀ x ∈ rest.takeWhile (fun x => decide (strLt x.url E)), strLt x.url E := by
          intro x hx
          simpa using List.mem_takeWhile_imp hx
        have hef : ¬ strLt e.url E := by
          simpa using dropWhile_head_false hdw
        have hTsplit2 : T = (done ++ c :: rest.takeWhile (fun x => decide (strLt x.url E)))
            ++ e :: post := by
          rw [List.append_assoc, List.cons_append]
          rw [hTeq]
          rw [← hRsplit]
        have hdone2 : ∀ x ∈ done ++ c :: rest.takeWhile (fun x => decide (strLt x.url E)),
            strLt x.url E := by
          intro x hx
          rcases List.mem_append.mp hx with hx | hx
          · exact hdoneE x hx
          · rcases List.mem_cons.mp hx with hx | hx
            · subst hx
              exact hEc
            · exact htw x hx
        by_cases hEe : E = e.url
        · have hIA : isAvailable f sfx .regular z ⟨R, c.url, some c, rest.map .entry, false⟩ =
              (compareEntry f .regular z e.url (some e),
                ⟨R, e.url, some e, post.map .entry, false⟩) := by
            simp [isAvailable, hEs, hloop, if_pos hEe]
          rw [hIA]
          refine ⟨?_, ?_⟩
          · have hfind : T.find? (fun x => decide (x.url = E)) = some e := by
              rw [hTsplit2]
              exact find?_url_append _ e post (fun x hx => strLt_ne (hdone2 x hx)) hEe.symm
            unfold lookupAnswer
            rw [hfind]
          · exact ⟨rfl, Or.inr (Or.inl ⟨_, e, post, hTsplit2, rfl, rfl, rfl, rfl, hdone2⟩)⟩
        · have hlt : strLt E e.url := by
            rcases strLt_trichotomy E e.url with h | h | h
            · exact h
            · exact absurd h hEe
            · exact absurd h hef
          have hIA : isAvailable f sfx .regular z ⟨R, c.url, some c, rest.map .entry, false⟩ =
              (.ok false, ⟨R, e.url, some e, post.map .entry, false⟩) := by
            simp [isAvailable, hEs, hloop, if_neg hEe]
          rw [hIA]
          refine ⟨?_, ?_⟩
          · have hn : T.find? (fun x => decide (x.url = E)) = none := by
              rw [hTsplit2, List.find?_eq_none]
              intro x hx
              simp only [decide_eq_true_eq]
              rcases List.mem_append.mp hx with hx | hx
              · exact strLt_ne (hdone2 x hx)
              · rcases List.mem_cons.mp hx with hx | hx
                · subst hx
                  exact fun hc => hEe hc.symm
                · have hp : strLt e.url x.url := by
                    have hPrest' := hPrest
                    rw [hRsplit] at hPrest'
                    rcases List.pairwise_append.mp hPrest' with ⟨_, h2, _⟩
                    exact (List.pairwise_cons.mp h2).1 x hx
                  exact Ne.symm (strLt_ne (strLt_trans hlt hp))
            unfold lookupAnswer
            rw [hn]
          · exact ⟨rfl, Or.inr (Or.inl ⟨_, e, post, hTsplit2, rfl, rfl, rfl, rfl, hdone2⟩)⟩
  · -- sticky EOF
    have hIA : isAvailable f sfx .regular z ⟨R, cur, cont, strm, eo⟩ =
        (.ok false, ⟨R, cur, cont, strm, eo⟩) := by
      simp [isAvailable, heof]
    rw [hIA]
    refine ⟨?_, ?_⟩
    · have hn : T.find? (fun x => decide (x.url = E)) = none := by
        rw [List.find?_eq_none]
        intro x hx
        simp only [decide_eq_true_eq]
        exact strLt_ne (strLt_of_strLt_of_strLe (hall x hx) hlo)
      unfold lookupAnswer
      rw [hn]
    · exact ⟨rfl, Or.inr (Or.inr ⟨heof, fun x hx =>
        strLt_of_strLt_of_strLe (hall x hx) hlo⟩)⟩

theorem endsWithSep_ne_empty {u : String} (h : endsWithSep u = true) : ¬ u = "" := by
  intro he
  subst he
  simp [endsWithSep] at h

theorem str_append_ne_empty_left {s t : String} (h : s ≠ "") : s ++ t ≠ "" := by
  rw [str_ne_empty_iff, str_data_append]
  intro he
  rcases List.append_eq_nil.mp he with ⟨h1, _⟩
  exact str_ne_empty_iff.mp h h1

theorem urlJoinPath_eq_append (R x : String) :
    urlJoinPath R x = (if endsWithSep R then R else R ++ "/") ++ x := by
  unfold urlJoinPath
  by_cases h : endsWithSep R <;> simp [h]

theorem urlJoinPath_ne_empty (u p : String) : ¬ urlJoinPath u p = "" := by
  rw [urlJoinPath_eq_append]
  by_cases h : endsWithSep u
  · rw [if_pos h]
    apply str_append_ne_empty_left
    exact endsWithSep_ne_empty h
  · rw [if_neg h]
    apply str_append_ne_empty_left
    apply str_append_ne_empty_right
    decide

theorem strLt_urlJoin (R sfx : String) (h : ¬ sfx = "") : strLt R (urlJoinPath R sfx) := by
  unfold urlJoinPath
  by_cases hR : endsWithSep R
  · rw [if_pos hR]
    exact strLt_self_append h
  · rw [if_neg hR, String.append_assoc]
    exact strLt_self_append (str_append_ne_empty_left (by decide))

theorem strLe_urlJoin {R a b : String} (h : strLe a b) :
    strLe (urlJoinPath R a) (urlJoinPath R b) := by
  rw [urlJoinPath_eq_append, urlJoinPath_eq_append]
  exact strLe_append h

theorem strLt_urlJoin_iff {u a b : String} :
    strLt (urlJoinPath u a) (urlJoinPath u b) ↔ strLt a b := by
  rw [urlJoinPath_eq_append, urlJoinPath_eq_append]
  exact strLt_append_iff

theorem urlJoin_left_inj {u a b : String} (h : urlJoinPath u a = urlJoinPath u b) :
    a = b := by
  rw [urlJoinPath_eq_append, urlJoinPath_eq_append] at h
  exact str_append_left_inj h

theorem strLt_empty {x : String} (h : ¬ x = "") : strLt "" x := by
  unfold strLt
  rcases hd : x.data with _ | ⟨c, cs⟩
  · exact absurd hd (str_ne_empty_iff.mp h)
  · exact List.Lex.nil

theorem url_unique_of_pairwise {T : List Entry}
    (hT : T.Pairwise (fun a b => strLt a.url b.url)) {a b : Entry}
    (ha : a ∈ T) (hb : b ∈ T) (hab : a.url = b.url) : a = b := by
  induction T with
  | nil => cases ha
  | cons x T ih =>
    rcases List.pairwise_cons.mp hT with ⟨hx, hT'⟩
    rcases List.mem_cons.mp ha with rfl | ha'
    · rcases List.mem_cons.mp hb with rfl | hb'
      · rfl
      · exact absurd hab (strLt_ne (hx b hb'))
    · rcases List.mem_cons.mp hb with rfl | hb'
      · exact absurd hab.symm (strLt_ne (hx a ha'))
      · exact ih hT' ha' hb'

theorem compareEntry_ok_true {f : Bool} {z : Int} {cur : String} {c : Entry} :
    compareEntry f .regular z cur (some c) = .ok true ↔
      (c.kind = .regular ∧ c.size = z) := by
  unfold compareEntry
  by_cases h1 : c.kind = .regular
  · by_cases h2 : z = c.size
    · simp [h1, h2]
    · have h2' : ¬ c.size = z := fun hh => h2 hh.symm
      cases f <;> simp [h1, h2, h2']
  · simp [h1]

theorem lookupAnswer_ok_true_iff {f : Bool} {z : Int} {E : String} {T : List Entry}
    (hT : T.Pairwise (fun a b => strLt a.url b.url)) :
    lookupAnswer f z E T = .ok true ↔
      ∃ e ∈ T, e.url = E ∧ e.kind = .regular ∧ e.size = z := by
  unfold lookupAnswer
  cases hf : T.find? (fun x => decide (x.url = E)) with
  | none =>
    constructor
    · intro h
      simp at h
    · rintro ⟨e, he, heq, _, _⟩
      have := List.find?_eq_none.mp hf e he
      simp [heq] at this
  | some e =>
    have heE : e.url = E := by
      have := List.find?_some hf
      simpa using this
    have heT : e ∈ T := List.mem_of_find?_eq_some hf
    rw [compareEntry_ok_true]
    constructor
    · rintro ⟨h1, h2⟩
      exact ⟨e, heT, heE, h1, h2⟩
    · rintro ⟨m, hm, hmE, hmk, hms⟩
      have : m = e := url_unique_of_pairwise hT hm heT (hmE.trans heE.symm)
      subst this
      exact ⟨hmk, hms⟩

theorem lookupAnswer_absent {f : Bool} {z : Int} {E : String} {T : List Entry}
    (h : ∀ e ∈ T, ¬ e.url = E) : lookupAnswer f z E T = .ok false := by
  unfold lookupAnswer
  have hn : T.find? (fun x => decide (x.url = E)) = none := by
    rw [List.find?_eq_none]
    intro x hx
    simpa using h x hx
  rw [hn]

theorem runQueries_eq (f : Bool) (R : String) (T : List Entry)
    (hT : T.Pairwise (fun a b => strLt a.url b.url)) :
    ∀ (qs : List (String × Int)) (lo : String) (st : OracleState),
      OracleInv R T lo st →
      qs.Pairwise (fun a b => strLe a.1 b.1) →
      (∀ q ∈ qs, ¬ q.1 = "") →
      (∀ q ∈ qs, strLe lo (urlJoinPath R q.1)) →
      (runQueries f qs st).1 =
        qs.map (fun q => lookupAnswer f q.2 (urlJoinPath R q.1) T) := by
  intro qs
  induction qs with
  | nil =>
    intro lo st _ _ _ _
    rfl
  | cons q qs ih =>
    intro lo st hinv hqs hne hlo
    have hq1 : ¬ q.1 = "" := hne q (List.mem_cons_self q qs)
    have hstep := oracle_step f R T lo (urlJoinPath R q.1) q.2 st q.1 hT hinv
      (strLt_urlJoin R q.1 hq1) (hlo q (List.mem_cons_self q qs)) rfl
    have htail := ih (urlJoinPath R q.1) (isAvailable f q.1 .regular q.2 st).2 hstep.2
      (List.pairwise_cons.mp hqs).2
      (fun x hx => hne x (List.mem_cons_of_mem q hx))
      (fun x hx => strLe_urlJoin ((List.pairwise_cons.mp hqs).1 x hx))
    show (isAvailable f q.1 .regular q.2 st).1 ::
        (runQueries f qs (isAvailable f q.1 .regular q.2 st).2).1 = _
    rw [List.map_cons, hstep.1, htail]

/-- C1: for a target listing stream delivered in non-decreasing lexicographic
path order (a listing holds each path once, so the order is strictly
increasing) and isAvailable queries for regular source files issued in
non-decreasing suffix order, a query answers "available" (true, nil) exactly
when the listing contains an entry at join(targetRoot, suffix) that is a
regular file of the queried size, and when the listing has no entry at that
path at all (the cursor passes it or the stream is exhausted) the query
answers "not available" (false) with no error. -/
theorem mirror_isAvailable_merge (f : Bool) (R : String) (T : List Entry)
    (qs : List (String × Int))
    (hT : T.Pairwise (fun a b => strLt a.url b.url))
    (hqs : qs.Pairwise (fun a b => strLe a.1 b.1))
    (hne : ∀ q ∈ qs, ¬ q.1 = "")
    (i : Nat) (q : String × Int) (hq : qs[i]? = some q) :
    ((runQueries f qs (getIsAvailable R (T.map .entry))).1[i]? = some (.ok true) ↔
      ∃ e ∈ T, e.url = urlJoinPath R q.1 ∧ e.kind = .regular ∧ e.size = q.2) ∧
    ((∀ e ∈ T, ¬ e.url = urlJoinPath R q.1) →
      (runQueries f qs (getIsAvailable R (T.map .entry))).1[i]? =
        some (.ok false)) := by
  have hinv0 : OracleInv R T "" (getIsAvailable R (T.map .entry)) :=
    ⟨rfl, Or.inl ⟨rfl, rfl, rfl, rfl⟩⟩
  have hrun := runQueries_eq f R T hT qs "" (getIsAvailable R (T.map .entry)) hinv0
    hqs hne (fun x _ => Or.inl (strLt_empty (urlJoinPath_ne_empty R x.1)))
  rw [hrun]
  have hmap : (qs.map (fun q => lookupAnswer f q.2 (urlJoinPath R q.1) T))[i]? =
      some (lookupAnswer f q.2 (urlJoinPath R q.1) T) := by
    simp [List.getElem?_map, hq]
  rw [hmap]
  constructor
  · constructor
    · intro h
      exact (lookupAnswer_ok_true_iff hT).mp (Option.some_inj.mp h)
    · intro h
      exact congrArg some ((lookupAnswer_ok_true_iff hT).mpr h)
  · intro h
    rw [lookupAnswer_absent h]

/-- Witness for C1: a two-query run against a one-entry listing; the first
query hits the mirrored object, the second asks for an absent one. -/
theorem mirror_isAvailable_merge_witness :
    ((runQueries false [("a", (5 : Int)), ("b", 3)]
        (getIsAvailable "t/" (([⟨"t/a", "", .regular, 5⟩] : List Entry).map .entry))).1[0]? =
          some (.ok true) ↔
      ∃ e ∈ ([⟨"t/a", "", .regular, 5⟩] : List Entry),
        e.url = urlJoinPath "t/" "a" ∧ e.kind = .regular ∧ e.size = 5) ∧
    ((∀ e ∈ ([⟨"t/a", "", .regular, 5⟩] : List Entry),
        ¬ e.url = urlJoinPath "t/" "a") →
      (runQueries false [("a", (5 : Int)), ("b", 3)]
        (getIsAvailable "t/" (([⟨"t/a", "", .regular, 5⟩] : List Entry).map .entry))).1[0]? =
          some (.ok false)) :=
  mirror_isAvailable_merge false "t/" [⟨"t/a", "", .regular, 5⟩]
    [("a", 5), ("b", 3)] (by decide) (by decide) (by decide) 0 ("a", 5) (by decide)

/-- C2 (code evidence): guessCopyURLType tests sourceURLs == nil only, so the
nil slice yields Invalid while a non-nil empty source slice, which is equally
an empty source list, falls through to the multi-source branch and yields
type D instead of Invalid as the spec and the code's own comment require. -/
theorem guessCopyURLType_empty_slice :
    guessCopyURLType statExample none "out/" = .invalid ∧
    guessCopyURLType statExample (some []) "out/" = .typeD := by
  constructor <;> decide

/-- C4: on a non-empty source list and a non-blank target, the classifier
returns type C (RecursiveDirToDirectory) for a single recursive source with
precedence over the directory test, type B (SingleFileToDirectory) for a
single non-recursive source when the target stats as an existing directory,
type A (SingleFileToFile) for a single non-recursive source otherwise, and
type D (MultiSourceToDirectory) for more than one source. -/
theorem guessCopyURLType_shapes (stat : String → Option Entry)
    (srcs : List String) (tgt : String)
    (hne : srcs ≠ []) (htgt : ¬ trimSpace tgt = "") :
    (∀ u, srcs = [u] →
      (isURLRecursive u = true → guessCopyURLType stat (some srcs) tgt = .typeC) ∧
      (isURLRecursive u = false → isTargetURLDir stat tgt = true →
        guessCopyURLType stat (some srcs) tgt = .typeB) ∧
      (isURLRecursive u = false → isTargetURLDir stat tgt = false →
        guessCopyURLType stat (some srcs) tgt = .typeA)) ∧
    (1 < srcs.length → guessCopyURLType stat (some srcs) tgt = .typeD) := by
  have htgt2 : ¬ (trimSpace tgt = "" ∨ tgt = "") := by
    rintro (h | h)
    · exact htgt h
    · subst h
      exact htgt rfl
  constructor
  · rintro u rfl
    refine ⟨?_, ?_, ?_⟩
    · intro hrec
      simp [guessCopyURLType, htgt2, hrec]
    · intro hrec hdir
      simp [guessCopyURLType, htgt2, hrec, hdir]
    · intro hrec hdir
      simp [guessCopyURLType, htgt2, hrec, hdir]
  · intro hlen
    have h1 : ¬ (srcs.length = 1) := by omega
    simp [guessCopyURLType, htgt2, h1]

/-- Witness for C4: a recursive source beats the existing directory target,
and two sources classify as multi-source. -/
theorem guessCopyURLType_shapes_witness :
    guessCopyURLType statExample (some ["dir/..."]) "out/" = .typeC ∧
    guessCopyURLType statExample (some ["f1", "f2"]) "out/" = .typeD := by
  constructor
  · exact ((guessCopyURLType_shapes statExample ["dir/..."] "out/" (by decide)
      (by decide)).1 "dir/..." rfl).1 (by decide)
  · exact (guessCopyURLType_shapes statExample ["f1", "f2"] "out/" (by decide)
      (by decide)).2 (by decide)

/-- C6: the type A generator emits exactly one error instruction when the
source fails to stat or is not a regular file, and otherwise exactly one
non-error instruction carrying the source and target paths unchanged; the
stream is closed after that single send. -/
theorem prepareCopyURLsTypeA_spec (stat : String → Option Entry) (s t : String) :
    ((stat s = none ∨ ∃ c, stat s = some c ∧ ¬ c.kind = .regular) →
      ∃ err, prepareCopyURLsTypeA stat s t = [{ error := some err }]) ∧
    (∀ c, stat s = some c → c.kind = .regular →
      prepareCopyURLsTypeA stat s t =
        [{ sourceContent := some { c with name := s }
           targetContent := some { name := t } }]) := by
  constructor
  · rintro (h | ⟨c, hc, hk⟩)
    · exact ⟨.statError s, by simp [prepareCopyURLsTypeA, h]⟩
    · exact ⟨.invalidSource s, by simp [prepareCopyURLsTypeA, hc, hk]⟩
  · intro c hc hk
    simp [prepareCopyURLsTypeA, hc, hk]

/-- Witness for C6: a regular 2-byte file copied onto an explicit target
path. -/
theorem prepareCopyURLsTypeA_spec_witness :
    prepareCopyURLsTypeA statExample "f" "out2" =
      [{ sourceContent := some { url := "f", name := "f", kind := .regular, size := 2 }
         targetContent := some { name := "out2" } }] :=
  (prepareCopyURLsTypeA_spec statExample "f" "out2").2
    { url := "f", kind := .regular, size := 2 } (by decide) rfl

/-- C7: for an existing regular source file, the type B generator behaves
exactly as type A run on (source, join(target_dir, basename(source))): its one
instruction carries that joined target path and is otherwise identical. -/
theorem prepareCopyURLsTypeB_spec (stat : String → Option Entry) (s t : String)
    (c : Entry) (hc : stat s = some c) (hk : c.kind = .regular) :
    prepareCopyURLsTypeB stat s t =
      prepareCopyURLsTypeA stat s (joinFilePath t (baseName s)) ∧
    prepareCopyURLsTypeB stat s t =
      [{ sourceContent := some { c with name := s }
         targetContent := some { name := joinFilePath t (baseName s) } }] := by
  have h1 : prepareCopyURLsTypeB stat s t =
      prepareCopyURLsTypeA stat s (joinFilePath t (baseName s)) := by
    simp [prepareCopyURLsTypeB, hc, hk]
  refine ⟨h1, h1.trans ?_⟩
  simp [prepareCopyURLsTypeA, hc, hk]

/-- Witness for C7: copying file "f" into directory "out/" targets
"out/f". -/
theorem prepareCopyURLsTypeB_spec_witness :
    prepareCopyURLsTypeB statExample "f" "out/" =
      prepareCopyURLsTypeA statExample "f" (joinFilePath "out/" (baseName "f")) ∧
    prepareCopyURLsTypeB statExample "f" "out/" =
      [{ sourceContent := some { url := "f", name := "f", kind := .regular, size := 2 }
         targetContent := some { name := joinFilePath "out/" (baseName "f") } }] :=
  prepareCopyURLsTypeB_spec statExample "f" "out/"
    { url := "f", kind := .regular, size := 2 } (by decide) rfl

/-- C10 (code evidence): mirrorURLs.isEmpty dereferences a nil SourceContent in
its second branch, so on a pure error instruction (SourceContent nil, Error
non-nil) or on a value with targets but no source it panics instead of
returning a boolean. -/
theorem mirrorURLs_isEmpty_nil_deref :
    mirrorURLs.isEmpty { error := some (.streamError "lost") } = none ∧
    mirrorURLs.isEmpty { targetContents := ["t/x"] } = none := by
  constructor <;> decide

/-- C8: over an existing source directory, the type C generator turns every
regular-file entry of the recursive listing into exactly one copy instruction,
emits no instruction for directory entries, and forwards each listing error as
one error instruction while continuing with the remaining entries. -/
theorem prepareCopyURLsTypeC_spec (stat : String → Option Entry)
    (listing : List ListEvent) (s t : String)
    (hrec : isURLRecursive s = true)
    (d : Entry) (hd : stat (stripRecursiveURL s) = some d)
    (hdk : d.kind = .directory)
    (hw : ∀ e : Entry, ListEvent.entry e ∈ listing → e.kind = .regular →
      ∃ c, stat (dirPrefixOf (stripRecursiveURL s) ++ e.name) = some c ∧
        c.kind = .regular) :
    prepareCopyURLsTypeC stat listing s t =
      listing.flatMap (fun ev =>
        match ev with
        | .errEvent m => [{ error := some (.listError m) }]
        | .entry e =>
          if e.kind = .regular then
            match stat (dirPrefixOf (stripRecursiveURL s) ++ e.name) with
            | some c =>
              [{ sourceContent := some
                   { c with name := dirPrefixOf (stripRecursiveURL s) ++ e.name }
                 targetContent := some { name := joinFilePath t e.name } }]
            | none => []
          else []) := by
  have hout : prepareCopyURLsTypeC stat listing s t =
      listing.flatMap (fun ev =>
        match ev with
        | .errEvent m => [{ error := some (.listError m) }]
        | .entry e =>
          if ¬ e.kind = .regular then []
          else prepareCopyURLsTypeA stat (dirPrefixOf (stripRecursiveURL s) ++ e.name)
            (joinFilePath t e.name)) := by
    simp [prepareCopyURLsTypeC, hrec, hd, hdk]
  rw [hout]
  clear hout
  induction listing with
  | nil => rfl
  | cons ev L ihL =>
    rw [List.flatMap_cons, List.flatMap_cons,
      ihL (fun e he hk => hw e (List.mem_cons_of_mem ev he) hk)]
    congr 1
    cases ev with
    | errEvent m => rfl
    | entry e =>
      by_cases hk : e.kind = .regular
      · obtain ⟨c, hc, hck⟩ := hw e (List.mem_cons_self _ _) hk
        simp [hk, hc, hck, prepareCopyURLsTypeA]
      · simp [hk]

/-- Witness for C8: a two-event listing with one regular file and one listing
error produces one copy instruction followed by one error instruction. -/
theorem prepareCopyURLsTypeC_spec_witness :
    prepareCopyURLsTypeC statExample
        [.entry { name := "d/x", kind := .regular, size := 1 },
         .errEvent "boom"] "d..." "out" =
      [{ sourceContent := some { url := "d/x", name := "d/x", kind := .regular, size := 1 }
         targetContent := some { name := "out/d/x" } },
       { error := some (.listError "boom") }] := by
  have h := prepareCopyURLsTypeC_spec statExample
    [.entry { name := "d/x", kind := .regular, size := 1 }, .errEvent "boom"]
    "d..." "out" (by decide) { url := "d", kind := .directory } (by decide) rfl ?hw
  · rw [h]
    decide
  case hw =>
    intro e he hk
    rcases List.mem_cons.mp he with he | he
    · injection he with he
      subst he
      exact ⟨{ url := "d/x", kind := .regular, size := 1 }, by decide, rfl⟩
    · rcases List.mem_cons.mp he with he | he
      · exact absurd he (by simp)
      · simp at he

theorem str_empty_append (x : String) : "" ++ x = x := by
  apply String.toList_inj.mp
  show ("" ++ x).data = x.data
  rw [str_data_append]
  rfl

theorem baseName_ne_empty {p : String} (h : endsWithSep p = false) :
    ¬ baseName p = "" := by
  unfold baseName
  by_cases hp : p = ""
  · simp [hp]
  · rw [if_neg hp]
    intro hcon
    have hdata : ((p.data.reverse.takeWhile (fun c => ¬ c = '/')).reverse) = [] :=
      congrArg String.data hcon
    rw [List.reverse_eq_nil_iff] at hdata
    obtain ⟨c, rest, hrev⟩ : ∃ c rest, p.data.reverse = c :: rest := by
      rcases hr : p.data.reverse with _ | ⟨c, rest⟩
      · exact absurd (List.reverse_eq_nil_iff.mp hr) (str_ne_empty_iff.mp hp)
      · exact ⟨c, rest, rfl⟩
    rw [hrev, List.takeWhile_cons] at hdata
    by_cases hc : c = '/'
    · have hsep : endsWithSep p = true := by
        unfold endsWithSep
        rw [← List.head?_reverse, hrev, hc]
        rfl
      rw [hsep] at h
      cases h
    · simp [hc] at hdata

theorem endsWithSep_normRoot (u : String) : endsWithSep (normRoot u) = true := by
  unfold normRoot
  by_cases h : endsWithSep u
  · simp [h]
  · rw [if_neg h]
    unfold endsWithSep
    rw [str_data_append]
    simp

theorem trimPrefixStr_append (pre t : String) : trimPrefixStr (pre ++ t) pre = t := by
  unfold trimPrefixStr
  rw [str_data_append, if_pos]
  · rw [List.drop_left]
  · rw [List.isPrefixOf_iff_prefix]
    exact ⟨t.data, rfl⟩

theorem mirrorSuffix_eq (src x : String) (e : Entry)
    (h : e.url = normRoot src ++ x) : mirrorSuffix src e = suffixBase src ++ x := by
  unfold mirrorSuffix suffixBase
  by_cases hs : endsWithSep src
  · rw [if_pos hs, if_pos hs]
    rw [h]
    unfold normRoot
    rw [if_pos hs, trimPrefixStr_append, str_empty_append]
  · rw [if_neg hs, if_neg hs]
    rw [h]
    unfold normRoot
    rw [if_neg hs, trimPrefixStr_append, urlJoinPath_eq_append]

theorem mirrorSuffix_ne_empty {src x : String} {e : Entry}
    (h : e.url = normRoot src ++ x) (hx : ¬ x = "") : ¬ mirrorSuffix src e = "" := by
  rw [mirrorSuffix_eq src x e h]
  exact str_append_ne_empty_right hx

theorem mirrorSuffix_strLt {src xa xb : String} {a b : Entry}
    (ha : a.url = normRoot src ++ xa) (hb : b.url = normRoot src ++ xb)
    (hab : strLt a.url b.url) : strLt (mirrorSuffix src a) (mirrorSuffix src b) := by
  rw [mirrorSuffix_eq src xa a ha, mirrorSuffix_eq src xb b hb]
  rw [strLt_append_iff]
  rw [ha, hb, strLt_append_iff] at hab
  exact hab

theorem deltaSuffix_eq (src : String) (e : Entry) :
    (if ¬ (if endsWithSep src then "" else baseName src) = "" then
       urlJoinPath (if endsWithSep src then "" else baseName src)
         (trimPrefixStr e.url (normRoot src))
     else trimPrefixStr e.url (normRoot src)) = mirrorSuffix src e := by
  by_cases h : endsWithSep src
  · simp [h, normRoot, mirrorSuffix]
  · have hb : ¬ baseName src = "" := baseName_ne_empty (Bool.eq_false_iff.mpr h)
    simp [h, normRoot, mirrorSuffix, hb]

theorem kind_not_dir {k : FileKind} : ¬ k = .directory ↔ k = .regular := by
  cases k <;> simp

theorem isAvailable_empty_stream (f : Bool) (u sfx : String) (k : FileKind) (z : Int)
    (b : Bool) (hs : ¬ sfx = "") :
    isAvailable f sfx k z ⟨u, u, none, [], b⟩ =
      (.ok false, ⟨u, u, none, [], true⟩) := by
  have hE : strLt u (urlJoinPath u sfx) := strLt_urlJoin u sfx hs
  cases b
  · simp only [isAvailable]
    rw [availLoop.eq_def]
    simp [strLt_asymm hE, (strLt_ne hE).symm]
  · simp [isAvailable]

theorem processTargets_empty (f : Bool) (sfx : String) (k : FileKind) (z : Int)
    (hs : ¬ sfx = "") :
    ∀ (us : List String) (b : Bool),
      processTargets f sfx k z (us.map (fun u => (u, ⟨u, u, none, [], b⟩))) =
        ⟨[], us.map (fun u => urlJoinPath u sfx),
          us.map (fun u => (u, ⟨u, u, none, [], true⟩)), false⟩ := by
  intro us b
  induction us with
  | nil => rfl
  | cons u us ih =>
    rw [List.map_cons, processTargets]
    rw [isAvailable_empty_stream f u sfx k z b hs]
    rw [ih]
    rfl

theorem deltaLoop_empty (f : Bool) (su sb : String) :
    ∀ (L : List Entry) (us : List String) (b : Bool), ¬ us = [] →
      (∀ e ∈ L, ¬ e.kind = .directory →
        ¬ (if ¬ sb = "" then urlJoinPath sb (trimPrefixStr e.url su)
           else trimPrefixStr e.url su) = "") →
      deltaLoop f su sb (L.map .entry) (us.map (fun u => (u, ⟨u, u, none, [], b⟩))) =
        (L.filter (fun e => decide (¬ e.kind = .directory))).map (fun e =>
          { sourceContent := some e
            targetContents := us.map (fun u => urlJoinPath u
              (if ¬ sb = "" then urlJoinPath sb (trimPrefixStr e.url su)
               else trimPrefixStr e.url su))
            error := none }) := by
  intro L
  induction L with
  | nil =>
    intro us b _ _
    rfl
  | cons e L ihL =>
    intro us b hus hsfx
    rw [List.map_cons]
    by_cases hk : e.kind = .directory
    · rw [deltaLoop, if_pos hk]
      rw [ihL us b hus (fun x hx hk2 => hsfx x (List.mem_cons_of_mem e hx) hk2)]
      rw [List.filter_cons]
      simp [hk]
    · have hs : ¬ (if ¬ sb = "" then urlJoinPath sb (trimPrefixStr e.url su)
          else trimPrefixStr e.url su) = "" :=
        hsfx e (List.mem_cons_self e L) hk
      rw [deltaLoop, if_neg hk]
      simp only
      rw [processTargets_empty f _ e.kind e.size hs us b]
      rw [ihL us true hus (fun x hx hk2 => hsfx x (List.mem_cons_of_mem e hx) hk2)]
      rw [List.filter_cons]
      have hpos : 0 < us.length := by
        cases us with
        | nil => exact absurd rfl hus
        | cons a l => simp
      simp [hk, hpos]

/-- C5: with target listings empty (fresh targets), every emitted instruction
targets join(targetRoot, suffix) where the suffix of a source entry carries the
final path segment of the source root as a prefix exactly when the source root
argument did not end with the separator; with a trailing separator the entry's
relative path is used unchanged. -/
theorem deltaSourceTargets_sourceBaseDir (f : Bool) (src : String)
    (tgts : List String) (L : List Entry)
    (htgts : ¬ tgts = [])
    (hsfx : ∀ e ∈ L, ¬ e.kind = .directory → ¬ mirrorSuffix src e = "") :
    deltaSourceTargets f src tgts (L.map .entry) (fun _ => []) =
      (L.filter (fun e => decide (¬ e.kind = .directory))).map (fun e =>
        { sourceContent := some e
          targetContents := (tgts.map normRoot).map
            (fun u => urlJoinPath u (mirrorSuffix src e))
          error := none }) ∧
    (endsWithSep src = false →
      ∀ e : Entry, mirrorSuffix src e =
        urlJoinPath (baseName src) (trimPrefixStr e.url (src ++ "/"))) ∧
    (endsWithSep src = true →
      ∀ e : Entry, mirrorSuffix src e = trimPrefixStr e.url src) := by
  refine ⟨?_, ?_, ?_⟩
  · have h0 : deltaSourceTargets f src tgts (L.map .entry) (fun _ => []) =
        deltaLoop f (normRoot src) (if endsWithSep src then "" else baseName src)
          (L.map .entry)
          ((tgts.map normRoot).map (fun u => (u, ⟨u, u, none, [], false⟩))) := rfl
    rw [h0]
    rw [deltaLoop_empty f (normRoot src) (if endsWithSep src then "" else baseName src)
      L (tgts.map normRoot) false
      (fun hc => htgts (List.map_eq_nil_iff.mp hc))
      (fun e he hk => by rw [deltaSuffix_eq]; exact hsfx e he hk)]
    simp only [deltaSuffix_eq]
  · intro h e
    simp [mirrorSuffix, h]
  · intro h e
    simp [mirrorSuffix, h]

/-- Witness for C5: mirroring source root a/b/c (no trailing separator) into
d/e places f.txt under d/e/c/. -/
theorem deltaSourceTargets_sourceBaseDir_witness :
    deltaSourceTargets false "a/b/c" ["d/e"]
        ([({ url := "a/b/c/f.txt", kind := .regular, size := 7 } : Entry)].map .entry)
        (fun _ => []) =
      [{ sourceContent := some { url := "a/b/c/f.txt", kind := .regular, size := 7 }
         targetContents := ["d/e/c/f.txt"]
         error := none }] := by
  have h := (deltaSourceTargets_sourceBaseDir false "a/b/c" ["d/e"]
    [{ url := "a/b/c/f.txt", kind := .regular, size := 7 }] (by decide) (by decide)).1
  rw [h]
  decide

theorem isAvailable_single_hit (f : Bool) (u sfx : String) (zsrc : Int) (tE : Entry)
    (hs : ¬ sfx = "") (hurl : tE.url = urlJoinPath u sfx) :
    isAvailable f sfx .regular zsrc ⟨u, u, none, [.entry tE], false⟩ =
      (compareEntry f .regular zsrc tE.url (some tE),
        ⟨u, tE.url, some tE, [], false⟩) := by
  have hE : strLt u (urlJoinPath u sfx) := strLt_urlJoin u sfx hs
  have hloop : availLoop f .regular zsrc (urlJoinPath u sfx) u none [.entry tE] =
      ⟨compareEntry f .regular zsrc tE.url (some tE), tE.url, some tE, [], false⟩ := by
    rw [availLoop.eq_def]
    simp only [if_neg (strLt_asymm hE), if_neg (Ne.symm (strLt_ne hE))]
    exact availLoop_at hurl.symm
  simp [isAvailable, hloop]

theorem compareEntry_size_mismatch (z1 : Int) (cur : String) (c : Entry)
    (hck : c.kind = .regular) (hz : ¬ z1 = c.size) :
    compareEntry false .regular z1 cur (some c) = .fatal (.overwriteNotAllowed cur) ∧
    compareEntry true .regular z1 cur (some c) = .ok false := by
  unfold compareEntry
  simp [hck, hz]

/-- C3: a regular source file whose path also exists on the target with a
different size: without force the availability query returns the
overwrite-not-allowed error and the mirror run emits only that error
instruction, never a transfer; with force the query returns "not available"
with no error and the run emits a transfer instruction listing that target. -/
theorem mirror_force_overwrite (src tgt : String) (e : Entry) (nm : String)
    (z : Int) (hk : e.kind = .regular) (hz : ¬ e.size = z)
    (hs : ¬ mirrorSuffix src e = "") :
    (isAvailable false (mirrorSuffix src e) .regular e.size
        (getIsAvailable (normRoot tgt)
          [.entry { url := urlJoinPath (normRoot tgt) (mirrorSuffix src e),
                    name := nm, kind := .regular, size := z }])).1 =
      .fatal (.overwriteNotAllowed (urlJoinPath (normRoot tgt) (mirrorSuffix src e))) ∧
    (isAvailable true (mirrorSuffix src e) .regular e.size
        (getIsAvailable (normRoot tgt)
          [.entry { url := urlJoinPath (normRoot tgt) (mirrorSuffix src e),
                    name := nm, kind := .regular, size := z }])).1 = .ok false ∧
    deltaSourceTargets false src [tgt] [.entry e]
        (fun _ => [.entry { url := urlJoinPath (normRoot tgt) (mirrorSuffix src e),
                            name := nm, kind := .regular, size := z }]) =
      [{ error := some (.overwriteNotAllowed
          (urlJoinPath (normRoot tgt) (mirrorSuffix src e))) }] ∧
    deltaSourceTargets true src [tgt] [.entry e]
        (fun _ => [.entry { url := urlJoinPath (normRoot tgt) (mirrorSuffix src e),
                            name := nm, kind := .regular, size := z }]) =
      [{ sourceContent := some e
         targetContents := [urlJoinPath (normRoot tgt) (mirrorSuffix src e)]
         error := none }] := by
  have hhit : ∀ g : Bool,
      isAvailable g (mirrorSuffix src e) .regular e.size
        ⟨normRoot tgt, normRoot tgt, none,
          [.entry { url := urlJoinPath (normRoot tgt) (mirrorSuffix src e),
                    name := nm, kind := .regular, size := z }], false⟩ =
      (compareEntry g .regular e.size
          (urlJoinPath (normRoot tgt) (mirrorSuffix src e))
          (some { url := urlJoinPath (normRoot tgt) (mirrorSuffix src e),
                  name := nm, kind := .regular, size := z }),
        ⟨normRoot tgt, urlJoinPath (normRoot tgt) (mirrorSuffix src e),
          some { url := urlJoinPath (normRoot tgt) (mirrorSuffix src e),
                 name := nm, kind := .regular, size := z }, [], false⟩) :=
    fun g => isAvailable_single_hit g (normRoot tgt) (mirrorSuffix src e) e.size
      { url := urlJoinPath (normRoot tgt) (mirrorSuffix src e),
        name := nm, kind := .regular, size := z } hs rfl
  have hcmp := compareEntry_size_mismatch e.size
    (urlJoinPath (normRoot tgt) (mirrorSuffix src e))
    { url := urlJoinPath (normRoot tgt) (mirrorSuffix src e),
      name := nm, kind := .regular, size := z } rfl hz
  refine ⟨?_, ?_, ?_, ?_⟩
  · rw [show getIsAvailable (normRoot tgt)
        [.entry { url := urlJoinPath (normRoot tgt) (mirrorSuffix src e),
                  name := nm, kind := .regular, size := z }] =
      (⟨normRoot tgt, normRoot tgt, none,
        [.entry { url := urlJoinPath (normRoot tgt) (mirrorSuffix src e),
                  name := nm, kind := .regular, size := z }], false⟩ : OracleState)
      from rfl, hhit false]
    exact hcmp.1
  · rw [show getIsAvailable (normRoot tgt)
        [.entry { url := urlJoinPath (normRoot tgt) (mirrorSuffix src e),
                  name := nm, kind := .regular, size := z }] =
      (⟨normRoot tgt, normRoot tgt, none,
        [.entry { url := urlJoinPath (normRoot tgt) (mirrorSuffix src e),
                  name := nm, kind := .regular, size := z }], false⟩ : OracleState)
      from rfl, hhit true]
    exact hcmp.2
  · have h0 : deltaSourceTargets false src [tgt] [.entry e]
        (fun _ => [.entry { url := urlJoinPath (normRoot tgt) (mirrorSuffix src e),
                            name := nm, kind := .regular, size := z }]) =
        deltaLoop false (normRoot src) (if endsWithSep src then "" else baseName src)
          [.entry e]
          [(normRoot tgt, ⟨normRoot tgt, normRoot tgt, none,
            [.entry { url := urlJoinPath (normRoot tgt) (mirrorSuffix src e),
                      name := nm, kind := .regular, size := z }], false⟩)] := rfl
    rw [h0, deltaLoop]
    rw [if_neg (by simp [hk])]
    simp only [deltaSuffix_eq]
    rw [processTargets, hk, hhit false]
    simp only [hcmp.1]
    rfl
  · have h0 : deltaSourceTargets true src [tgt] [.entry e]
        (fun _ => [.entry { url := urlJoinPath (normRoot tgt) (mirrorSuffix src e),
                            name := nm, kind := .regular, size := z }]) =
        deltaLoop true (normRoot src) (if endsWithSep src then "" else baseName src)
          [.entry e]
          [(normRoot tgt, ⟨normRoot tgt, normRoot tgt, none,
            [.entry { url := urlJoinPath (normRoot tgt) (mirrorSuffix src e),
                      name := nm, kind := .regular, size := z }], false⟩)] := rfl
    rw [h0, deltaLoop]
    rw [if_neg (by simp [hk])]
    simp only [deltaSuffix_eq]
    rw [processTargets, hk, hhit true]
    simp only [hcmp.2]
    rfl

/-- Witness for C3: object s/a exists on the target with size 7 instead of 5;
without force one overwrite error and no instruction, with force one transfer
instruction for that target. -/
theorem mirror_force_overwrite_witness :
    deltaSourceTargets false "s/" ["t"]
        [.entry { url := "s/a", kind := .regular, size := 5 }]
        (fun _ => [.entry { url := urlJoinPath (normRoot "t")
                              (mirrorSuffix "s/" { url := "s/a", kind := .regular, size := 5 }),
                            name := "", kind := .regular, size := 7 }]) =
      [{ error := some (.overwriteNotAllowed (urlJoinPath (normRoot "t")
           (mirrorSuffix "s/" { url := "s/a", kind := .regular, size := 5 }))) }] ∧
    deltaSourceTargets true "s/" ["t"]
        [.entry { url := "s/a", kind := .regular, size := 5 }]
        (fun _ => [.entry { url := urlJoinPath (normRoot "t")
                              (mirrorSuffix "s/" { url := "s/a", kind := .regular, size := 5 }),
                            name := "", kind := .regular, size := 7 }]) =
      [{ sourceContent := some { url := "s/a", kind := .regular, size := 5 }
         targetContents := [urlJoinPath (normRoot "t")
           (mirrorSuffix "s/" { url := "s/a", kind := .regular, size := 5 })]
         error := none }] := by
  have h := mirror_force_overwrite "s/" "t"
    { url := "s/a", kind := .regular, size := 5 } "" 7 rfl (by decide) (by decide)
  exact ⟨h.2.2.1, h.2.2.2⟩

theorem processTargets_errs_error (f : Bool) (sfx : String) (k : FileKind) (z : Int) :
    ∀ (ts : List (String × OracleState)),
      ∀ m ∈ (processTargets f sfx k z ts).errs, ∃ er, m.error = some er := by
  intro ts
  induction ts with
  | nil =>
    intro m hm
    simp [processTargets] at hm
  | cons t ts ih =>
    intro m hm
    obtain ⟨u, st⟩ := t
    rcases hp : (isAvailable f sfx k z st).1 with b | er
    · cases b <;> simp only [processTargets, hp] at hm <;> exact ih m hm
    · simp only [processTargets, hp] at hm
      rcases List.mem_cons.mp hm with rfl | hm
      · exact ⟨er, rfl⟩
      · exact ih m hm
    · simp only [processTargets, hp] at hm
      simp at hm

theorem deltaLoop_errors_or_targets (f : Bool) (su sb : String) :
    ∀ (evs : List ListEvent) (ts : List (String × OracleState)),
      ∀ m ∈ deltaLoop f su sb evs ts, m.error = none → ¬ m.targetContents = [] := by
  intro evs
  induction evs with
  | nil =>
    intro ts m hm
    simp [deltaLoop] at hm
  | cons ev evs ih =>
    intro ts m hm hme
    cases ev with
    | errEvent msg =>
      rw [deltaLoop] at hm
      rcases List.mem_cons.mp hm with rfl | hm
      · simp at hme
      · exact ih ts m hm hme
    | entry e =>
      rw [deltaLoop] at hm
      by_cases hk : e.kind = .directory
      · rw [if_pos hk] at hm
        exact ih ts m hm hme
      · rw [if_neg hk] at hm
        simp only at hm
        by_cases hpan : (processTargets f
            (if ¬ sb = "" then urlJoinPath sb (trimPrefixStr e.url su)
             else trimPrefixStr e.url su) e.kind e.size ts).panicked
        · rw [if_pos hpan] at hm
          obtain ⟨er, her⟩ := processTargets_errs_error f _ e.kind e.size ts m hm
          rw [her] at hme
          cases hme
        · rw [if_neg hpan] at hm
          rcases List.mem_append.mp hm with hm | hm
          · rcases List.mem_append.mp hm with hm | hm
            · obtain ⟨er, her⟩ := processTargets_errs_error f _ e.kind e.size ts m hm
              rw [her] at hme
              cases hme
            · by_cases hlen : 0 < (processTargets f
                  (if ¬ sb = "" then urlJoinPath sb (trimPrefixStr e.url su)
                   else trimPrefixStr e.url su) e.kind e.size ts).tgts.length
              · rw [if_pos hlen] at hm
                rcases List.mem_singleton.mp hm with rfl
                intro hcon
                have hcon2 : (processTargets f
                    (if ¬ sb = "" then urlJoinPath sb (trimPrefixStr e.url su)
                     else trimPrefixStr e.url su) e.kind e.size ts).tgts = [] := hcon
                rw [hcon2] at hlen
                simp at hlen
              · rw [if_neg hlen] at hm
                simp at hm
          · exact ih _ m hm hme

theorem isAvailable_aligned (f : Bool) (src u : String) (e : Entry)
    (p : Option Entry) (rem : List Entry)
    (hkind : e.kind = .regular)
    (hne : ¬ mirrorSuffix src e = "")
    (hp : ∀ pe, p = some pe → strLt (mirrorSuffix src pe) (mirrorSuffix src e)) :
    isAvailable f (mirrorSuffix src e) e.kind e.size
        (alignedOracle src u p (e :: rem)) =
      (.ok true, alignedOracle src u (some e) rem) := by
  cases p with
  | none =>
    have hcur : strLt u (urlJoinPath u (mirrorSuffix src e)) := strLt_urlJoin _ _ hne
    have hloop : availLoop f e.kind e.size (urlJoinPath u (mirrorSuffix src e)) u none
        (ListEvent.entry (mirrorImage src u e) ::
          rem.map (fun x => ListEvent.entry (mirrorImage src u x))) =
        ⟨.ok true, urlJoinPath u (mirrorSuffix src e), some (mirrorImage src u e),
          rem.map (fun x => .entry (mirrorImage src u x)), false⟩ := by
      rw [availLoop.eq_def]
      simp only [if_neg (strLt_asymm hcur), if_neg (Ne.symm (strLt_ne hcur))]
      rw [availLoop_at
        (show urlJoinPath u (mirrorSuffix src e) = (mirrorImage src u e).url from rfl)]
      simp [mirrorImage, compareEntry, hkind]
    simp [isAvailable, alignedOracle, hloop]
  | some pe =>
    have hplt := hp pe rfl
    have hcur : strLt (urlJoinPath u (mirrorSuffix src pe))
        (urlJoinPath u (mirrorSuffix src e)) := strLt_urlJoin_iff.mpr hplt
    have hloop : availLoop f e.kind e.size (urlJoinPath u (mirrorSuffix src e))
        (urlJoinPath u (mirrorSuffix src pe)) (some (mirrorImage src u pe))
        (ListEvent.entry (mirrorImage src u e) ::
          rem.map (fun x => ListEvent.entry (mirrorImage src u x))) =
        ⟨.ok true, urlJoinPath u (mirrorSuffix src e), some (mirrorImage src u e),
          rem.map (fun x => .entry (mirrorImage src u x)), false⟩ := by
      rw [availLoop.eq_def]
      simp only [if_neg (strLt_asymm hcur), if_neg (Ne.symm (strLt_ne hcur))]
      rw [availLoop_at
        (show urlJoinPath u (mirrorSuffix src e) = (mirrorImage src u e).url from rfl)]
      simp [mirrorImage, compareEntry, hkind]
    simp [isAvailable, alignedOracle, hloop]

theorem processTargets_aligned (f : Bool) (src : String) (e : Entry)
    (p : Option Entry) (rem : List Entry)
    (hkind : e.kind = .regular) (hne : ¬ mirrorSuffix src e = "")
    (hp : ∀ pe, p = some pe → strLt (mirrorSuffix src pe) (mirrorSuffix src e)) :
    ∀ us : List String,
      processTargets f (mirrorSuffix src e) e.kind e.size
        (us.map (fun u => (u, alignedOracle src u p (e :: rem)))) =
      ⟨[], [], us.map (fun u => (u, alignedOracle src u (some e) rem)), false⟩ := by
  intro us
  induction us with
  | nil => rfl
  | cons u us ih =>
    rw [List.map_cons, processTargets,
      isAvailable_aligned f src u e p rem hkind hne hp, ih]
    rfl

theorem deltaLoop_aligned (f : Bool) (src : String) :
    ∀ (L : List Entry) (p : Option Entry) (us : List String),
      (∀ x ∈ L, ¬ x.kind = .directory → ¬ mirrorSuffix src x = "") →
      L.Pairwise (fun a b => strLt (mirrorSuffix src a) (mirrorSuffix src b)) →
      (∀ pe, p = some pe → ∀ x ∈ L, strLt (mirrorSuffix src pe) (mirrorSuffix src x)) →
      deltaLoop f (normRoot src) (if endsWithSep src then "" else baseName src)
        (L.map .entry)
        (us.map (fun u => (u, alignedOracle src u p
          (L.filter (fun x => decide (x.kind = .regular)))))) = [] := by
  intro L
  induction L with
  | nil =>
    intro p us _ _ _
    rfl
  | cons e L ihL =>
    intro p us h1 h2 hp
    by_cases hk : e.kind = .directory
    · have hfil : (e :: L).filter (fun x => decide (x.kind = .regular)) =
          L.filter (fun x => decide (x.kind = .regular)) := by
        simp [List.filter_cons, hk]
      rw [List.map_cons, deltaLoop, if_pos hk, hfil]
      exact ihL p us (fun x hx => h1 x (List.mem_cons_of_mem e hx))
        (List.pairwise_cons.mp h2).2
        (fun pe hpe x hx => hp pe hpe x (List.mem_cons_of_mem e hx))
    · have hkr : e.kind = .regular := kind_not_dir.mp hk
      have hne : ¬ mirrorSuffix src e = "" := h1 e (List.mem_cons_self e L) hk
      have hfil : (e :: L).filter (fun x => decide (x.kind = .regular)) =
          e :: L.filter (fun x => decide (x.kind = .regular)) := by
        simp [List.filter_cons, hkr]
      rw [List.map_cons, deltaLoop, if_neg hk, hfil]
      simp only [deltaSuffix_eq]
      rw [processTargets_aligned f src e p (L.filter (fun x => decide (x.kind = .regular)))
        hkr hne (fun pe hpe => hp pe hpe e (List.mem_cons_self e L))]
      simp only [List.length_nil, List.append_nil, List.nil_append]
      rw [ihL (some e) us (fun x hx => h1 x (List.mem_cons_of_mem e hx))
        (List.pairwise_cons.mp h2).2
        (fun pe hpe x hx => by
          injection hpe with hpe2
          subst hpe2
          exact (List.pairwise_cons.mp h2).1 x hx)]
      simp

/-- C9: every mirror instruction the delta engine emits that is not an error
instruction lists at least one target, and a second mirror run over identical
source and target content (each target already holding the image of every
regular source object) emits zero instructions. -/
theorem mirror_nonempty_and_idempotent :
    (∀ (f : Bool) (src : String) (tgts : List String) (L : List ListEvent)
        (TL : String → List ListEvent) (m : mirrorURLs),
      m ∈ deltaSourceTargets f src tgts L TL → m.error = none →
        ¬ m.targetContents = []) ∧
    (∀ (f : Bool) (src : String) (tgts : List String) (L : List Entry),
      L.Pairwise (fun a b => strLt a.url b.url) →
      (∀ e ∈ L, ∃ x, ¬ x = "" ∧ e.url = normRoot src ++ x) →
      deltaSourceTargets f src tgts (L.map .entry)
        (fun u => (L.filter (fun e => decide (e.kind = .regular))).map
          (fun e => .entry (mirrorImage src u e))) = []) := by
  constructor
  · intro f src tgts L TL m hm hme
    exact deltaLoop_errors_or_targets f (normRoot src)
      (if endsWithSep src then "" else baseName src) L
      ((tgts.map normRoot).map (fun u => (u, getIsAvailable u (TL u)))) m hm hme
  · intro f src tgts L hT hpre
    have hT2 : L.Pairwise (fun a b => strLt (mirrorSuffix src a) (mirrorSuffix src b)) := by
      refine hT.imp_of_mem ?_
      intro a b ha hb hab
      obtain ⟨xa, hxa, ha2⟩ := hpre a ha
      obtain ⟨xb, hxb, hb2⟩ := hpre b hb
      exact mirrorSuffix_strLt ha2 hb2 hab
    have h0 : deltaSourceTargets f src tgts (L.map .entry)
        (fun u => (L.filter (fun e => decide (e.kind = .regular))).map
          (fun e => .entry (mirrorImage src u e))) =
        deltaLoop f (normRoot src) (if endsWithSep src then "" else baseName src)
          (L.map .entry)
          ((tgts.map normRoot).map (fun u => (u, alignedOracle src u none
            (L.filter (fun e => decide (e.kind = .regular)))))) := rfl
    rw [h0]
    exact deltaLoop_aligned f src L none (tgts.map normRoot)
      (fun x hx hk => by
        obtain ⟨sx, hsx, hx2⟩ := hpre x hx
        exact mirrorSuffix_ne_empty hx2 hsx)
      hT2
      (fun pe hpe => by cases hpe)

/-- Witness for C9: a non-error instruction from a fresh-target run has a
non-empty target list, and re-mirroring one object already present with the
same size emits nothing. -/
theorem mirror_nonempty_and_idempotent_witness :
    ¬ ({ sourceContent := some { url := "s/a", kind := .regular, size := 5 },
         targetContents := ["t/a"], error := none } : mirrorURLs).targetContents = [] ∧
    deltaSourceTargets false "s" ["t"]
        (([{ url := "s/a", kind := .regular, size := 5 }] : List Entry).map .entry)
        (fun u => (([{ url := "s/a", kind := .regular, size := 5 }] : List Entry).filter
          (fun e => decide (e.kind = .regular))).map
            (fun e => .entry (mirrorImage "s" u e))) = [] := by
  constructor
  · exact mirror_nonempty_and_idempotent.1 false "s/" ["t"]
      [.entry { url := "s/a", kind := .regular, size := 5 }] (fun _ => [])
      { sourceContent := some { url := "s/a", kind := .regular, size := 5 },
        targetContents := ["t/a"], error := none } (by decide) rfl
  · exact mirror_nonempty_and_idempotent.2 false "s" ["t"]
      [{ url := "s/a", kind := .regular, size := 5 }] (by decide)
      (fun e he => by
        rcases List.mem_singleton.mp he with rfl
        exact ⟨"a", by decide, by decide⟩)
